import Mathlib

/-!
Verification development for the AstralDraw draw/ticket lifecycle engine
(src/AstralDraw/core/models.py and src/AstralDraw/core/views.py).

Python strings and byte strings appearing in the code are modelled as
`PyStr := List Nat` (one code point / byte per entry; all relevant data is
ASCII, where the encode/decode steps of the source are the identity).

The Key Codec of the source is `cryptography.fernet.Fernet`.  A Fernet token
is `base64url( 0x80 || timestamp_be64 || iv_16 || AES128-CBC(PKCS7(pt)) ||
HMAC-SHA256 )`, where the 16-byte IV is drawn fresh from `os.urandom` at each
`encrypt` call and the 32-byte Fernet key is split into a signing half and an
encryption half.  The token layout, the base64url armor, the PKCS7 padding
and the key derivation `base64.urlsafe_b64encode(secret.encode().ljust(32)[:32])`
are modelled exactly.  The AES block cipher and the HMAC are external
primitives; they are modelled by executable stand-ins (`ks_enc`/`hmac_model`)
that keep the algebraic properties the source relies on: both are
deterministic functions of (key, iv, data), the cipher is invertible for a
fixed key and IV, and the ciphertext depends on the IV.  The freshness of
`os.urandom` is modelled by passing the IV (and the timestamp) as explicit
arguments to encryption.
-/

/-- Python strings / byte strings: a list of code points (ASCII ⇒ bytes). -/
abbrev PyStr := List Nat

/-- Big-endian byte encoding of `n`, `k` bytes (as in `struct.pack` of the
timestamp inside a Fernet token). -/
def beBytes : Nat → Nat → List Nat
  | 0, _ => []
  | k + 1, n => beBytes k (n / 256) ++ [n % 256]

/-- The base64url alphabet of `base64.urlsafe_b64encode`: value `n < 64` to
the code point of its digit character. -/
def b64c (n : Nat) : Nat :=
  if n < 26 then 65 + n
  else if n < 52 then 97 + (n - 26)
  else if n < 62 then 48 + (n - 52)
  else if n = 62 then 45
  else 95

/-- Inverse of the base64url alphabet; `none` on a character outside it. -/
def b64v (c : Nat) : Option Nat :=
  if 65 ≤ c ∧ c ≤ 90 then some (c - 65)
  else if 97 ≤ c ∧ c ≤ 122 then some (26 + (c - 97))
  else if 48 ≤ c ∧ c ≤ 57 then some (52 + (c - 48))
  else if c = 45 then some 62
  else if c = 95 then some 63
  else none

/-- base64url encoding of a byte list (61 is the code of the pad sign). -/
def b64encode : List Nat → List Nat
  | [] => []
  | [b1] => [b64c (b1 / 4), b64c (b1 % 4 * 16), 61, 61]
  | [b1, b2] => [b64c (b1 / 4), b64c (b1 % 4 * 16 + b2 / 16), b64c (b2 % 16 * 4), 61]
  | b1 :: b2 :: b3 :: rest =>
      b64c (b1 / 4) :: b64c (b1 % 4 * 16 + b2 / 16) :: b64c (b2 % 16 * 4 + b3 / 64) ::
        b64c (b3 % 64) :: b64encode rest

/-- base64url decoding; `none` when the input is not well-formed base64. -/
def b64decode : List Nat → Option (List Nat)
  | [] => some []
  | c1 :: c2 :: c3 :: c4 :: rest =>
      (b64v c1).bind fun n1 =>
      (b64v c2).bind fun n2 =>
      if c3 = 61 ∧ c4 = 61 ∧ rest = [] then
        some [n1 * 4 + n2 / 16]
      else if c4 = 61 ∧ rest = [] then
        (b64v c3).bind fun n3 =>
        some [n1 * 4 + n2 / 16, n2 % 16 * 16 + n3 / 4]
      else
        (b64v c3).bind fun n3 =>
        (b64v c4).bind fun n4 =>
        (b64decode rest).map fun tail =>
          (n1 * 4 + n2 / 16) :: (n2 % 16 * 16 + n3 / 4) :: (n3 % 4 * 64 + n4) :: tail
  | _ => some []

/-- PKCS7 padding to 16-byte blocks, as applied by Fernet before AES-CBC. -/
def pad16 (l : List Nat) : List Nat :=
  l ++ List.replicate (16 - l.length % 16) (16 - l.length % 16)

/-- PKCS7 unpadding; `none` when the padding bytes are not well-formed. -/
def unpad16 (l : List Nat) : Option (List Nat) :=
  l.reverse.head?.bind fun n =>
    if n = 0 ∨ 16 < n ∨ l.length < n then none
    else if l.drop (l.length - n) = List.replicate n n then some (l.take (l.length - n))
    else none

/-- Mixing of the encryption half of the key and the IV into one keystream
seed (stand-in for the AES key schedule; deterministic in key and IV). -/
def mix_key (l : List Nat) : Nat :=
  l.foldl (fun a b => a * 257 + b + 1) 1

/-- Keystream cipher standing in for AES-128-CBC: byte `i` of the plaintext
is shifted by a keystream byte derived from the key-and-IV seed `k` and the
position.  Deterministic in (key, IV, plaintext) and invertible. -/
def ks_enc (k i : Nat) : List Nat → List Nat
  | [] => []
  | b :: rest => (b + k + i) % 256 :: ks_enc k (i + 1) rest

/-- Inverse of `ks_enc` on byte lists. -/
def ks_dec (k i : Nat) : List Nat → List Nat
  | [] => []
  | b :: rest => (b + 256 - (k + i) % 256) % 256 :: ks_dec k (i + 1) rest

/-- Stand-in for HMAC-SHA256: 32 bytes, a deterministic function of the
signing key and the message. -/
def hmac_model (key msg : List Nat) : List Nat :=
  beBytes 32 ((key ++ msg).foldl (fun a b => a * 257 + b + 1) 7)

/-- Fernet key derivation of the source:
`secret_key.encode().ljust(32)[:32]` (pad with spaces to 32 bytes, truncate
to 32).  The base64 encode step of the source is undone by Fernet itself, so
the model keeps the raw 32 bytes. -/
def fernet_key (secret : PyStr) : List Nat :=
  (secret ++ List.replicate 32 32).take 32

/-- Raw bytes of a Fernet token: version byte 0x80, 8-byte big-endian
timestamp, 16-byte IV, the CBC ciphertext of the padded plaintext, and the
32-byte HMAC over everything before it. -/
def fernet_token_bytes (secret : PyStr) (ts iv : Nat) (pt : List Nat) : List Nat :=
  let key := fernet_key secret
  let ivB := beBytes 16 iv
  let ct := ks_enc (mix_key (key.drop 16 ++ ivB)) 0 (pad16 pt)
  let core := 128 :: (beBytes 8 ts ++ ivB ++ ct)
  core ++ hmac_model (key.take 16) core

/-- Model of `Draw.encrypt_data` (identical in `UserWallet.encrypt_key` and
`ForgedKey.encrypt_data`): raises when the secret is missing (`none`),
otherwise returns the base64url Fernet token of the data.  The fresh
`os.urandom(16)` IV and the current time are the `iv`/`ts` arguments. -/
def encrypt_data (secret : PyStr) (ts iv : Nat) (data : PyStr) : Option PyStr :=
  if secret = [] then none
  else some (b64encode (fernet_token_bytes secret ts iv data))

/-- Model of `Draw.decrypt_data`: raises (`none`) when the secret is missing
or the token does not decode, parse, authenticate or unpad. -/
def decrypt_data (secret : PyStr) (token : PyStr) : Option PyStr :=
  if secret = [] then none
  else
    (b64decode token).bind fun bytes =>
    if bytes.length < 57 then none
    else
      let key := fernet_key secret
      let core := bytes.take (bytes.length - 32)
      let tag := bytes.drop (bytes.length - 32)
      if tag ≠ hmac_model (key.take 16) core then none
      else if core.head? ≠ some 128 then none
      else
        let rest := core.tail
        let ivB := (rest.drop 8).take 16
        let ct := rest.drop 24
        unpad16 (ks_dec (mix_key (key.drop 16 ++ ivB)) 0 ct)

/-- Decimal digits of `n` as code points (`fuel`-structured so that the
kernel can evaluate it; `fuel ≥ n` suffices). -/
def renderNatAux : Nat → Nat → List Nat
  | 0, _ => []
  | fuel + 1, n => if n < 10 then [48 + n] else renderNatAux fuel (n / 10) ++ [48 + n % 10]

/-- Decimal rendering of a natural number, as `json.dumps` renders an int. -/
def renderNat (n : Nat) : List Nat := renderNatAux (n + 1) n

/-- Item rendering of `json.dumps` for a list body: items joined by a comma
and a space (the default separator of `json.dumps`). -/
def jsonJoin : List Nat → List Nat
  | [] => []
  | [x] => renderNat x
  | x :: rest => renderNat x ++ (44 :: 32 :: jsonJoin rest)

/-- Model of `json.dumps` on a list of symbols: `[a, b, c]`. -/
def jsonDumps (l : List Nat) : List Nat := 91 :: (jsonJoin l ++ [93])

/-- Whitespace skipping of the JSON scanner (space, tab, LF, CR). -/
def skipWs : List Nat → List Nat
  | [] => []
  | c :: rest => if c = 32 ∨ c = 9 ∨ c = 10 ∨ c = 13 then skipWs rest else c :: rest

/-- Greedy decimal-digit scan of the JSON number scanner. -/
def scanDigits (acc : Nat) : List Nat → Nat × List Nat
  | [] => (acc, [])
  | c :: rest =>
    if 48 ≤ c ∧ c ≤ 57 then scanDigits (acc * 10 + (c - 48)) rest else (acc, c :: rest)

/-- Items of a JSON array of numbers after the opening bracket, at least one
item; returns the items and the input after the closing bracket. -/
def parseItems : Nat → List Nat → Option (List Nat × List Nat)
  | 0, _ => none
  | fuel + 1, s =>
    match skipWs s with
    | [] => none
    | c :: rest =>
      if 48 ≤ c ∧ c ≤ 57 then
        match scanDigits (c - 48) rest with
        | (n, s2) =>
          match skipWs s2 with
          | 44 :: s4 =>
            match parseItems fuel s4 with
            | some (ns, s5) => some (n :: ns, s5)
            | none => none
          | 93 :: s4 => some ([n], s4)
          | _ => none
      else none

/-- Model of `json.loads` restricted to the payloads this code stores: a JSON
array of (non-negative) integers; `none` on anything else (in the source a
`json.JSONDecodeError`, or content the callers cannot use). -/
def jsonLoads (s : List Nat) : Option (List Nat) :=
  match skipWs s with
  | 91 :: rest =>
    match skipWs rest with
    | [] => none
    | c :: s3 =>
      if c = 93 then (if skipWs s3 = [] then some [] else none)
      else
        match parseItems s.length rest with
        | some (ns, s5) => if skipWs s5 = [] then some ns else none
        | none => none
  | _ => none

/-- Model of `Draw.get_star_keys` / `ForgedKey.get_star_keys`: empty field or
any decryption/parsing failure yields the empty list. -/
def get_star_keys (secret : PyStr) (field : PyStr) : List Nat :=
  if field = [] then []
  else ((decrypt_data secret field).bind jsonLoads).getD []

/-- Model of `Draw.set_star_keys` / `ForgedKey.set_star_keys`: the value that
ends up stored in the `star_keys` field (`none` models the raised error when
the secret is not configured). -/
def set_star_keys (secret : PyStr) (ts iv : Nat) (keys : List Nat) : Option PyStr :=
  encrypt_data secret ts iv (jsonDumps keys)

/-- Code points of the ciphertext marker `gAAAA` used by every `save` in
models.py to avoid double encryption. -/
def gAAAA : List Nat := [103, 65, 65, 65, 65]

/-- Model of the `save` guard shared by `UserWallet.save`, `Draw.save` and
`ForgedKey.save`: a non-empty field not starting with `gAAAA` is encrypted,
everything else is stored unchanged.  `none` models the exception raised by
`encrypt_data` when the secret is missing. -/
def save_star_keys (secret : PyStr) (ts iv : Nat) (field : PyStr) : Option PyStr :=
  if field ≠ [] ∧ ¬ (gAAAA.isPrefixOf field) then encrypt_data secret ts iv field
  else some field

/-- The lifecycle states of `Draw.DrawStatus`. -/
inductive DrawStatus
  | UPCOMING
  | ACTIVE
  | ENDED
  | CANCELLED
deriving DecidableEq, Repr

/-- Model of the `Draw` row: the fields the claims touch.  `star_keys` is the
stored (normally encrypted) text; wallets and serials are identifiers. -/
structure DrawM where
  title : PyStr
  prize_pool : ℚ
  star_keys : PyStr
  status : DrawStatus
  draw_datetime : Nat
  total_tickets_sold : Nat
  total_prize_distributed : ℚ
  winning_ticket_serial : Option Nat
  winner_wallet : Option Nat
deriving DecidableEq, Repr

/-- Model of a `ForgedKey` row (a ticket of one draw). -/
structure FK where
  star_keys : PyStr
  serial : Nat
  wallet : Nat
deriving DecidableEq, Repr

/-- One entry of the list built by `Draw.map_nearest_winner`.  The iteration
order of a Python set of small ints is abstracted to the first-occurrence
order `List.dedup` keeps. -/
structure MatchEntry where
  forged_key : FK
  match_count : Nat
  matched_keys : List Nat
deriving DecidableEq, Repr

/-- Model of `Draw.map_winner`.  `tickets` is the ticket set of the draw in
the retrieval order (`-created_at`), so `.first()` is `find?`.  The exact
match compares the stored encrypted values.  On success the winner fields are
assigned and the draw is saved (re-running the encrypt-on-save guard on
`star_keys`); `none` models an exception escaping from that save. -/
def map_winner (secret : PyStr) (ts iv : Nat) (d : DrawM) (tickets : List FK) :
    Option (Option FK × DrawM) :=
  let winning := get_star_keys secret d.star_keys
  if winning = [] ∨ winning.length ≠ 6 then some (none, d)
  else
    match tickets.find? (fun fk => fk.star_keys == d.star_keys) with
    | none => some (none, d)
    | some fk =>
      match save_star_keys secret ts iv d.star_keys with
      | none => none
      | some s =>
        some (some fk, { d with winning_ticket_serial := some fk.serial,
                                winner_wallet := some fk.wallet, star_keys := s })

/-- The set intersection of the ticket key set with the winning key set, as
computed per ticket inside the `map_nearest_winner` loop
(`winning_keys.intersection(ticket_keys)`, sets as `dedup` lists). -/
def ticket_matched_keys (secret : PyStr) (d : DrawM) (fk : FK) : List Nat :=
  (get_star_keys secret d.star_keys).dedup.filter
    (fun k => k ∈ (get_star_keys secret fk.star_keys).dedup)

/-- The `match_count` of one ticket against the winning key set
(`len(winning_keys.intersection(ticket_keys))`). -/
def ticket_match_count (secret : PyStr) (d : DrawM) (fk : FK) : Nat :=
  (ticket_matched_keys secret d fk).length

/-- The body of the `map_nearest_winner` loop: the match entry appended for a
ticket when its match count reaches the threshold, `none` otherwise. -/
def nearest_entry (secret : PyStr) (d : DrawM) (min_matches : Nat) (fk : FK) :
    Option MatchEntry :=
  if min_matches ≤ ticket_match_count secret d fk then
    some { forged_key := fk, match_count := ticket_match_count secret d fk,
           matched_keys := ticket_matched_keys secret d fk }
  else none

/-- Model of `Draw.map_nearest_winner`: the winning keys as a set (`dedup`),
a guard requiring that set to have exactly 6 members, the per-ticket
intersection count against the ticket key set, the threshold filter, and a
stable descending sort by match count (`list.sort(reverse=True)`). -/
def map_nearest_winner (secret : PyStr) (d : DrawM) (tickets : List FK)
    (min_matches : Nat) : List MatchEntry :=
  if (get_star_keys secret d.star_keys).dedup = []
      ∨ (get_star_keys secret d.star_keys).dedup.length ≠ 6 then []
  else
    (tickets.filterMap (nearest_entry secret d min_matches)).mergeSort
      (fun a b => b.match_count ≤ a.match_count)

/-- One secondary winner of the prize breakdown of `get_draw_statistics`. -/
structure SecondaryWinner where
  wallet : Nat
  amount : ℚ
  match_count : Nat
  serial : Nat
deriving DecidableEq, Repr

/-- The `prize_distribution` part of the `get_draw_statistics` result. -/
structure PrizeDistribution where
  jackpot_amount : Option ℚ
  jackpot_serial : Option Nat
  secondary : List SecondaryWinner
deriving DecidableEq, Repr

/-- Model of the prize-distribution computation of `Draw.get_draw_statistics`.
`Decimal` amounts are modelled as exact rationals (the values here fit the
28-digit Decimal context exactly); the lossy `float(...)` display conversion
of the source is abstracted away.  Structure: the jackpot winner gets
`prize_pool * 0.7`; the nearest winners at threshold 4 share
`prize_pool * 0.2`, each of the top 5 getting that pool divided by
`min(5, len(nearest_winners))`. -/
def draw_prize_distribution (secret : PyStr) (d : DrawM) (tickets : List FK) :
    PrizeDistribution :=
  if d.status = DrawStatus.ENDED ∧ d.winner_wallet ≠ none then
    { jackpot_amount := some (d.prize_pool * (7 / 10 : ℚ)),
      jackpot_serial := d.winning_ticket_serial,
      secondary :=
        if map_nearest_winner secret d tickets 4 ≠ [] then
          ((map_nearest_winner secret d tickets 4).take 5).map (fun w =>
            { wallet := w.forged_key.wallet,
              amount := d.prize_pool * (2 / 10 : ℚ) /
                ((min 5 (map_nearest_winner secret d tickets 4).length : Nat) : ℚ),
              match_count := w.match_count, serial := w.forged_key.serial })
        else [] }
  else { jackpot_amount := none, jackpot_serial := none, secondary := [] }

/-- Model of `ForgedKey.calculate_rarity` on the decrypted key list (symbols
are the digits 0 to 9, so Python `%` agrees with `Nat.mod`): empty list
Common; 6 distinct values Rare; exactly 6 even members Epic; exactly 6 odd
members Epic; a single distinct value Legendary; otherwise Common. -/
def calculate_rarity (keys : List Nat) : String :=
  if keys = [] then "Common"
  else if keys.dedup.length = 6 then "Rare"
  else if (keys.filter (fun k => k % 2 = 0)).length = 6 then "Epic"
  else if (keys.filter (fun k => k % 2 ≠ 0)).length = 6 then "Epic"
  else if keys.dedup.length = 1 then "Legendary"
  else "Common"

/-- The rarity priority chain exactly as the specification words it: all six
pairwise distinct, else all six even, else all six odd, else all six
identical, else Common. -/
def rarity_spec_order (keys : List Nat) : String :=
  if keys.Nodup then "Rare"
  else if keys.all (fun k => k % 2 = 0) then "Epic"
  else if keys.all (fun k => k % 2 = 1) then "Epic"
  else if keys.all (fun k => keys.head? = some k) then "Legendary"
  else "Common"

/-- Model of `Draw.can_participate`. -/
def can_participate (now : Nat) (d : DrawM) : Bool :=
  (d.status = DrawStatus.UPCOMING ∨ d.status = DrawStatus.ACTIVE) ∧ d.draw_datetime > now

/-- The JSON payload built by the `draw_detail` view. -/
structure DrawDetailResp where
  title : PyStr
  status : DrawStatus
  prize_pool : ℚ
  draw_datetime : Nat
  total_tickets_sold : Nat
  can_participate : Bool
  winning_keys : Option (List Nat)
  winner : Option (Nat × Option Nat)
deriving DecidableEq, Repr

/-- Model of the `draw_detail` view: the base payload never reads
`star_keys`; only the `ENDED` branch adds the decrypted winning keys and the
winner reference. -/
def draw_detail (secret : PyStr) (now : Nat) (d : DrawM) : DrawDetailResp :=
  { title := d.title, status := d.status, prize_pool := d.prize_pool,
    draw_datetime := d.draw_datetime, total_tickets_sold := d.total_tickets_sold,
    can_participate := can_participate now d,
    winning_keys :=
      if d.status = DrawStatus.ENDED then some (get_star_keys secret d.star_keys) else none,
    winner :=
      if d.status = DrawStatus.ENDED then
        d.winner_wallet.map (fun w => (w, d.winning_ticket_serial))
      else none }

/-- The kinds of failure responses `process_draw` can produce (every error is
reported as a structured JSON failure by the view). -/
inductive ProcErr
  | state_rejected
  | crypto_error
  | type_error
  | unexpected
deriving DecidableEq, Repr

/-- Response of the `process_draw` view. -/
structure ProcResp where
  success : Bool
  error : Option ProcErr
deriving DecidableEq, Repr

/-- Injection points for an unexpected exception during `process_draw`
(models DB or cache failures; each is caught by the outer `except`). -/
inductive FailPoint
  | beforeResolve
  | inTransaction
  | afterCommit
deriving DecidableEq, Repr

/-- Model of the `process_draw` view.  The returned `DrawM` is the persisted
draw row after the request.  Notable source structure kept by the model:
the lifecycle guard runs first; `draw.map_winner()` runs **before** the
`transaction.atomic()` block and persists the winner fields itself via
`self.save()`; in the winner branch the source computes
`draw.prize_pool * 0.7`, which multiplies a `Decimal` by a `float` and
therefore raises `TypeError` inside the atomic block, so the status update
of that branch is rolled back; the no-winner branch only sets the status. -/
def process_draw (secret : PyStr) (ts iv now : Nat) (d : DrawM) (tickets : List FK)
    (fail : Option FailPoint) : ProcResp × DrawM :=
  if d.status ≠ DrawStatus.ACTIVE ∨ d.draw_datetime > now then
    ({ success := false, error := some ProcErr.state_rejected }, d)
  else if fail = some FailPoint.beforeResolve then
    ({ success := false, error := some ProcErr.unexpected }, d)
  else
    match map_winner secret ts iv d tickets with
    | none => ({ success := false, error := some ProcErr.crypto_error }, d)
    | some (some _, d1) => ({ success := false, error := some ProcErr.type_error }, d1)
    | some (none, d1) =>
      if fail = some FailPoint.inTransaction then
        ({ success := false, error := some ProcErr.unexpected }, d1)
      else
        let d2 := { d1 with status := DrawStatus.ENDED }
        if fail = some FailPoint.afterCommit then
          ({ success := false, error := some ProcErr.unexpected }, d2)
        else ({ success := true, error := none }, d2)

/-! Roundtrip lemmas for the codec layers. -/

theorem b64v_b64c : ∀ n, n < 64 → b64v (b64c n) = some n := by decide

theorem b64c_ne_61 : ∀ n, n < 64 → b64c n ≠ 61 := by decide

theorem b64_roundtrip (bs : List Nat) (h : ∀ b ∈ bs, b < 256) :
    b64decode (b64encode bs) = some bs := by
  induction bs using b64encode.induct with
  | case1 => rfl
  | case2 b1 =>
    have hb1 : b1 < 256 := h b1 (by simp)
    simp only [b64encode, b64decode]
    rw [b64v_b64c _ (by omega), b64v_b64c _ (by omega)]
    simp only [Option.some_bind, and_self, and_true, if_true, Option.some.injEq,
      List.cons.injEq, and_true]
    omega
  | case3 b1 b2 =>
    have hb1 : b1 < 256 := h b1 (by simp)
    have hb2 : b2 < 256 := h b2 (by simp)
    simp only [b64encode, b64decode]
    rw [b64v_b64c _ (by omega), b64v_b64c _ (by omega)]
    simp only [Option.some_bind]
    rw [if_neg (by exact fun hc => b64c_ne_61 _ (by omega) hc.1)]
    rw [if_pos (by exact ⟨trivial, trivial⟩)]
    rw [b64v_b64c _ (by omega)]
    simp only [Option.some_bind, Option.some.injEq, List.cons.injEq, and_true]
    omega
  | case4 b1 b2 b3 rest ih =>
    have hb1 : b1 < 256 := h b1 (by simp)
    have hb2 : b2 < 256 := h b2 (by simp)
    have hb3 : b3 < 256 := h b3 (by simp)
    have hrest : ∀ b ∈ rest, b < 256 := fun b hb => h b (by simp [hb])
    simp only [b64encode, b64decode]
    rw [b64v_b64c _ (by omega), b64v_b64c _ (by omega)]
    simp only [Option.some_bind]
    rw [if_neg (by exact fun hc => b64c_ne_61 _ (by omega) hc.1)]
    rw [if_neg (by exact fun hc => b64c_ne_61 _ (by omega) hc.1)]
    rw [b64v_b64c _ (by omega), b64v_b64c _ (by omega), ih hrest]
    simp only [Option.some_bind, Option.map_some', Option.some.injEq, List.cons.injEq,
      and_true]
    omega

theorem ks_roundtrip (k : Nat) (l : List Nat) (h : ∀ b ∈ l, b < 256) :
    ∀ i, ks_dec k i (ks_enc k i l) = l := by
  induction l with
  | nil => intro i; rfl
  | cons b rest ih =>
    intro i
    have hb : b < 256 := h b (by simp)
    have hrest : ∀ x ∈ rest, x < 256 := fun x hx => h x (by simp [hx])
    simp only [ks_enc, ks_dec, ih hrest]
    congr 1
    omega

theorem unpad_pad (l : List Nat) : unpad16 (pad16 l) = some l := by
  have hp1 : 1 ≤ 16 - l.length % 16 := by omega
  have hp2 : 16 - l.length % 16 ≤ 16 := by omega
  have hlen : (pad16 l).length = l.length + (16 - l.length % 16) := by
    simp [pad16]
  have hrev : (pad16 l).reverse.head? = some (16 - l.length % 16) := by
    obtain ⟨q, hq⟩ : ∃ q, 16 - l.length % 16 = q + 1 := ⟨16 - l.length % 16 - 1, by omega⟩
    rw [pad16, List.reverse_append, List.reverse_replicate, hq, List.replicate_succ]
    rfl
  have hsub : l.length + (16 - l.length % 16) - (16 - l.length % 16) = l.length := by omega
  have hdrop : (pad16 l).drop ((pad16 l).length - (16 - l.length % 16)) =
      List.replicate (16 - l.length % 16) (16 - l.length % 16) := by
    rw [hlen, hsub]
    have h2 : l.length = l.length := rfl
    calc (pad16 l).drop l.length
        = (l ++ List.replicate (16 - l.length % 16) (16 - l.length % 16)).drop l.length := rfl
      _ = _ := List.drop_left l _
  have htake : (pad16 l).take ((pad16 l).length - (16 - l.length % 16)) = l := by
    rw [hlen, hsub]
    calc (pad16 l).take l.length
        = (l ++ List.replicate (16 - l.length % 16) (16 - l.length % 16)).take l.length := rfl
      _ = l := List.take_left l _
  unfold unpad16
  rw [hrev, Option.some_bind]
  rw [if_neg (by rw [hlen]; omega)]
  rw [hdrop, if_pos rfl, htake]

theorem beBytes_length (k n : Nat) : (beBytes k n).length = k := by
  induction k generalizing n with
  | zero => rfl
  | succ k ih => simp [beBytes, ih]

theorem beBytes_lt (k n : Nat) : ∀ b ∈ beBytes k n, b < 256 := by
  induction k generalizing n with
  | zero => simp [beBytes]
  | succ k ih =>
    intro b hb
    rw [beBytes, List.mem_append] at hb
    rcases hb with hb | hb
    · exact ih _ b hb
    · simp only [List.mem_singleton] at hb
      omega

theorem ks_enc_lt (k : Nat) (l : List Nat) : ∀ i, ∀ b ∈ ks_enc k i l, b < 256 := by
  induction l with
  | nil => simp [ks_enc]
  | cons x rest ih =>
    intro i b hb
    rw [ks_enc, List.mem_cons] at hb
    rcases hb with hb | hb
    · omega
    · exact ih (i + 1) b hb

theorem ks_enc_length (k : Nat) (l : List Nat) : ∀ i, (ks_enc k i l).length = l.length := by
  induction l with
  | nil => intro i; rfl
  | cons x rest ih => intro i; simp [ks_enc, ih]

theorem pad16_lt (l : List Nat) (h : ∀ b ∈ l, b < 256) : ∀ b ∈ pad16 l, b < 256 := by
  intro b hb
  rw [pad16, List.mem_append] at hb
  rcases hb with hb | hb
  · exact h b hb
  · rw [List.eq_of_mem_replicate hb]
    omega

theorem hmac_length (key msg : List Nat) : (hmac_model key msg).length = 32 :=
  beBytes_length 32 _

/-- Decryption inverts encryption: for any configured secret, any timestamp,
any IV and any byte plaintext, `decrypt_data` recovers exactly the data that
`encrypt_data` sealed. -/
theorem decrypt_encrypt (secret : PyStr) (ts iv : Nat) (pt : List Nat)
    (hs : secret ≠ []) (hpt : ∀ b ∈ pt, b < 256) :
    decrypt_data secret (b64encode (fernet_token_bytes secret ts iv pt)) = some pt := by
  have hA : (beBytes 8 ts).length = 8 := beBytes_length 8 ts
  have hB : (beBytes 16 iv).length = 16 := beBytes_length 16 iv
  set key := fernet_key secret with hkey
  set A := beBytes 8 ts with hAdef
  set B := beBytes 16 iv with hBdef
  set C := ks_enc (mix_key (key.drop 16 ++ B)) 0 (pad16 pt) with hCdef
  set core := 128 :: (A ++ B ++ C) with hcore
  set tag := hmac_model (key.take 16) core with htag
  have htok : fernet_token_bytes secret ts iv pt = core ++ tag := rfl
  have htok_lt : ∀ b ∈ core ++ tag, b < 256 := by
    intro b hb
    rw [List.mem_append] at hb
    rcases hb with hb | hb
    · rw [hcore, List.mem_cons] at hb
      rcases hb with hb | hb
      · omega
      · rw [List.append_assoc, List.mem_append, List.mem_append] at hb
        rcases hb with hb | hb | hb
        · exact beBytes_lt 8 ts b hb
        · exact beBytes_lt 16 iv b hb
        · exact ks_enc_lt _ _ 0 b hb
    · exact beBytes_lt 32 _ b hb
  have hClen : 1 ≤ C.length := by
    rw [hCdef, ks_enc_length, pad16]
    simp only [List.length_append, List.length_replicate]
    omega
  have hcorelen : core.length = 25 + C.length := by
    rw [hcore]
    simp only [List.length_cons, List.length_append, hA, hB]
    omega
  have htaglen : tag.length = 32 := hmac_length _ _
  have hlen : (core ++ tag).length = core.length + 32 := by
    rw [List.length_append, htaglen]
  have hsub : core.length + 32 - 32 = core.length := by omega
  have hdrop8 : (A ++ B ++ C).drop 8 = B ++ C := by
    rw [List.append_assoc, ← hA, List.drop_left]
  have hdrop24 : (A ++ B ++ C).drop 24 = C := by
    have h24 : (A ++ B).length = 24 := by rw [List.length_append, hA, hB]
    rw [← h24, List.drop_left]
  have htake16 : (B ++ C).take 16 = B := by
    conv_lhs => rw [← hB]
    exact List.take_left B C
  rw [htok, decrypt_data, if_neg hs, b64_roundtrip _ htok_lt, Option.some_bind]
  rw [hlen, if_neg (by omega), hsub, List.take_left, List.drop_left]
  rw [if_neg (by exact fun hne => hne htag)]
  rw [if_neg (by exact fun hne => hne rfl)]
  show unpad16 (ks_dec (mix_key ((fernet_key secret).drop 16 ++
      ((core.tail.drop 8).take 16))) 0 (core.tail.drop 24)) = some pt
  have htail : core.tail = A ++ B ++ C := rfl
  rw [htail, hdrop8, hdrop24, htake16, hCdef,
    ks_roundtrip _ _ (pad16_lt pt hpt), unpad_pad]

theorem renderNat_digit (n : Nat) (h : n < 10) : renderNat n = [48 + n] := by
  simp [renderNat, renderNatAux, h]

theorem renderNatAux_lt (fuel : Nat) : ∀ n, ∀ b ∈ renderNatAux fuel n, b < 256 := by
  induction fuel with
  | zero => simp [renderNatAux]
  | succ fuel ih =>
    intro n b hb
    rw [renderNatAux] at hb
    by_cases h : n < 10
    · rw [if_pos h] at hb
      simp only [List.mem_singleton] at hb
      omega
    · rw [if_neg h, List.mem_append] at hb
      rcases hb with hb | hb
      · exact ih _ b hb
      · simp only [List.mem_singleton] at hb
        omega

theorem renderNat_ne_nil (n : Nat) : renderNat n ≠ [] := by
  rw [renderNat, renderNatAux]
  by_cases h : n < 10
  · rw [if_pos h]; simp
  · rw [if_neg h]; simp

theorem jsonJoin_lt (l : List Nat) : ∀ b ∈ jsonJoin l, b < 256 := by
  induction l using jsonJoin.induct with
  | case1 => simp [jsonJoin]
  | case2 x => exact fun b hb => renderNatAux_lt _ _ b hb
  | case3 x y hne ih =>
    intro b hb
    cases y with
    | nil => exact absurd rfl hne
    | cons z zs =>
      rw [show jsonJoin (x :: z :: zs) =
        renderNat x ++ (44 :: 32 :: jsonJoin (z :: zs)) from rfl, List.mem_append] at hb
      rcases hb with hb | hb
      · exact renderNatAux_lt _ _ b hb
      · simp only [List.mem_cons] at hb
        rcases hb with rfl | rfl | hb
        · omega
        · omega
        · exact ih b hb

theorem jsonDumps_lt (l : List Nat) : ∀ b ∈ jsonDumps l, b < 256 := by
  intro b hb
  rw [jsonDumps, List.mem_cons] at hb
  rcases hb with rfl | hb
  · omega
  · rw [List.mem_append] at hb
    rcases hb with hb | hb
    · exact jsonJoin_lt l b hb
    · simp only [List.mem_singleton] at hb
      omega

theorem jsonJoin_length_ge (l : List Nat) : l.length ≤ (jsonJoin l).length := by
  induction l using jsonJoin.induct with
  | case1 => simp [jsonJoin]
  | case2 x =>
    rw [jsonJoin]
    have := renderNat_ne_nil x
    cases hr : renderNat x with
    | nil => exact absurd hr this
    | cons a t => simp
  | case3 x y hne ih =>
    cases y with
    | nil => exact absurd rfl hne
    | cons z zs =>
      rw [show jsonJoin (x :: z :: zs) =
        renderNat x ++ (44 :: 32 :: jsonJoin (z :: zs)) from rfl]
      have := renderNat_ne_nil x
      cases hr : renderNat x with
      | nil => exact absurd hr this
      | cons a t =>
        simp only [List.length_append, List.length_cons, List.length_cons]
        simp only [List.length_cons] at ih ⊢
        omega

theorem skipWs_not_ws (c : Nat) (t : List Nat)
    (h : ¬ (c = 32 ∨ c = 9 ∨ c = 10 ∨ c = 13)) : skipWs (c :: t) = c :: t := by
  rw [skipWs, if_neg h]

theorem parseItems_skip32 (f : Nat) (u : List Nat) :
    parseItems f (32 :: u) = parseItems f u := by
  cases f with
  | zero => rfl
  | succ f =>
    have h : skipWs (32 :: u) = skipWs u := by
      rw [skipWs, if_pos (Or.inl rfl)]
    simp only [parseItems, h]

theorem parseItems_jsonJoin (l : List Nat) :
    ∀ fuel, l ≠ [] → (∀ d ∈ l, d < 10) → l.length ≤ fuel →
    parseItems fuel (jsonJoin l ++ [93]) = some (l, []) := by
  induction l with
  | nil => intro fuel h; exact absurd rfl h
  | cons x rest ih =>
    intro fuel _ hd hf
    obtain ⟨f, rfl⟩ : ∃ f, fuel = f + 1 := ⟨fuel - 1, by simp at hf; omega⟩
    have hx : x < 10 := hd x (by simp)
    cases rest with
    | nil =>
      rw [jsonJoin, renderNat_digit x hx]
      have h1 : skipWs ((48 + x) :: [93]) = (48 + x) :: [93] :=
        skipWs_not_ws _ _ (by omega)
      have h2 : scanDigits (48 + x - 48) [93] = (x, [93]) := by
        rw [scanDigits, if_neg (by omega)]
        congr 1
        omega
      have h3 : skipWs [93] = [93] := skipWs_not_ws _ _ (by omega)
      simp only [List.cons_append, List.nil_append, parseItems, h1, h2, h3]
      rw [if_pos (by omega)]
    | cons y rest2 =>
      have hrest : ∀ d ∈ y :: rest2, d < 10 := fun d hmem => hd d (by simp [hmem])
      have hflen : (y :: rest2).length ≤ f := by
        simp only [List.length_cons] at hf ⊢
        omega
      have hih := ih f (by simp) hrest hflen
      rw [show jsonJoin (x :: y :: rest2) =
        renderNat x ++ (44 :: 32 :: jsonJoin (y :: rest2)) from rfl, renderNat_digit x hx]
      have hjoin : ((48 + x) :: (44 :: 32 :: jsonJoin (y :: rest2))) ++ [93] =
          (48 + x) :: 44 :: 32 :: (jsonJoin (y :: rest2) ++ [93]) := by simp
      have h1 : skipWs ((48 + x) :: (44 :: 32 :: (jsonJoin (y :: rest2) ++ [93]))) =
          (48 + x) :: (44 :: 32 :: (jsonJoin (y :: rest2) ++ [93])) :=
        skipWs_not_ws _ _ (by omega)
      have h2 : scanDigits (48 + x - 48) (44 :: 32 :: (jsonJoin (y :: rest2) ++ [93])) =
          (x, 44 :: 32 :: (jsonJoin (y :: rest2) ++ [93])) := by
        rw [scanDigits, if_neg (by omega)]
        congr 1
        omega
      have h3 : skipWs (44 :: 32 :: (jsonJoin (y :: rest2) ++ [93])) =
          44 :: 32 :: (jsonJoin (y :: rest2) ++ [93]) :=
        skipWs_not_ws _ _ (by omega)
      simp only [List.cons_append, List.nil_append, parseItems, h1, h2, h3,
        parseItems_skip32, hih]
      rw [if_pos (by omega)]

/-- The JSON roundtrip used by `set_star_keys`/`get_star_keys`: parsing the
rendered form of a non-empty list of digit symbols gives the list back. -/
theorem jsonLoads_jsonDumps (l : List Nat) (hne : l ≠ []) (hd : ∀ d ∈ l, d < 10) :
    jsonLoads (jsonDumps l) = some l := by
  cases l with
  | nil => exact absurd rfl hne
  | cons x rest =>
    have hx : x < 10 := hd x (by simp)
    have hlen : (x :: rest).length ≤ (jsonDumps (x :: rest)).length := by
      have := jsonJoin_length_ge (x :: rest)
      simp only [jsonDumps, List.length_cons, List.length_append, List.length_singleton]
      simp only [List.length_cons] at this ⊢
      omega
    have hitems := parseItems_jsonJoin (x :: rest) (jsonDumps (x :: rest)).length
      (by simp) hd hlen
    have hjoin_head : ∃ t, jsonJoin (x :: rest) = (48 + x) :: t := by
      cases rest with
      | nil => exact ⟨[], by rw [jsonJoin, renderNat_digit x hx]⟩
      | cons y rest2 =>
        refine ⟨44 :: 32 :: jsonJoin (y :: rest2), ?_⟩
        rw [show jsonJoin (x :: y :: rest2) =
          renderNat x ++ (44 :: 32 :: jsonJoin (y :: rest2)) from rfl, renderNat_digit x hx]
        rfl
    obtain ⟨t, ht⟩ := hjoin_head
    have hs0 : skipWs (jsonDumps (x :: rest)) = 91 :: (jsonJoin (x :: rest) ++ [93]) := by
      rw [jsonDumps]
      exact skipWs_not_ws _ _ (by omega)
    have hs1 : skipWs (jsonJoin (x :: rest) ++ [93]) = (48 + x) :: (t ++ [93]) := by
      rw [ht]
      exact skipWs_not_ws _ _ (by omega)
    have hs2 : skipWs ([] : List Nat) = [] := rfl
    rw [jsonLoads, hs0]
    simp only [hs1]
    rw [if_neg (by omega)]
    simp only [hitems]
    rw [if_pos hs2]

theorem beBytes_eight (n : Nat) : beBytes 8 n =
    [n / 72057594037927936 % 256, n / 281474976710656 % 256, n / 1099511627776 % 256,
     n / 4294967296 % 256, n / 16777216 % 256, n / 65536 % 256, n / 256 % 256, n % 256] := by
  simp [beBytes, Nat.div_div_eq_div_mul]

theorem b64encode_gAAAA (x2 x3 x4 : Nat) (T : List Nat) (hx2 : x2 < 4) :
    gAAAA.isPrefixOf (b64encode (128 :: 0 :: 0 :: (x2 :: x3 :: x4 :: T))) = true := by
  have h4 : x2 / 4 = 0 := by omega
  simp only [b64encode]
  norm_num [gAAAA, List.isPrefixOf, b64c, h4]

/-- Every Fernet token whose timestamp is below `2 ^ 42` (true until the year
141338) starts with the `gAAAA` marker that the save guards sniff for. -/
theorem token_starts_gAAAA (secret : PyStr) (ts iv : Nat) (pt : List Nat)
    (hts : ts < 4398046511104) :
    gAAAA.isPrefixOf (b64encode (fernet_token_bytes secret ts iv pt)) = true := by
  have h0 : ts / 72057594037927936 % 256 = 0 := by omega
  have h1 : ts / 281474976710656 % 256 = 0 := by omega
  have hT : fernet_token_bytes secret ts iv pt =
      128 :: 0 :: 0 :: ((ts / 1099511627776 % 256) :: (ts / 4294967296 % 256) ::
        (ts / 16777216 % 256) ::
        ([ts / 65536 % 256, ts / 256 % 256, ts % 256] ++
          (beBytes 16 iv ++
            ks_enc (mix_key ((fernet_key secret).drop 16 ++ beBytes 16 iv)) 0 (pad16 pt)) ++
          hmac_model ((fernet_key secret).take 16)
            (128 :: (beBytes 8 ts ++ beBytes 16 iv ++
              ks_enc (mix_key ((fernet_key secret).drop 16 ++ beBytes 16 iv)) 0
                (pad16 pt))))) := by
    show (128 :: (beBytes 8 ts ++ beBytes 16 iv ++ _)) ++ _ = _
    rw [beBytes_eight, h0, h1]
    simp [List.cons_append, List.append_assoc]
  rw [hT]
  exact b64encode_gAAAA _ _ _ _ (by omega)

theorem b64encode_ne_nil (l : List Nat) (h : l ≠ []) : b64encode l ≠ [] := by
  match l with
  | [] => exact absurd rfl h
  | [b1] => simp [b64encode]
  | [b1, b2] => simp [b64encode]
  | b1 :: b2 :: b3 :: rest => simp [b64encode]

/-- C6: for every valid six-symbol combination `c` and a configured secret,
decrypting the Key Codec encryption of `c` returns `c`: the codec roundtrip
recovers the JSON plaintext exactly, and `get_star_keys` after
`set_star_keys c` returns `c`. -/
theorem star_keys_roundtrip (secret : PyStr) (ts iv : Nat) (c : List Nat)
    (hs : secret ≠ []) (hlen : c.length = 6) (hd : ∀ x ∈ c, x < 10) :
    (encrypt_data secret ts iv (jsonDumps c)).bind (decrypt_data secret) =
      some (jsonDumps c)
    ∧ (set_star_keys secret ts iv c).map (get_star_keys secret) = some c := by
  have henc : encrypt_data secret ts iv (jsonDumps c) =
      some (b64encode (fernet_token_bytes secret ts iv (jsonDumps c))) := by
    rw [encrypt_data, if_neg hs]
  have hdec := decrypt_encrypt secret ts iv (jsonDumps c) hs (jsonDumps_lt c)
  have hcne : c ≠ [] := by intro hc; rw [hc] at hlen; simp at hlen
  have hjson := jsonLoads_jsonDumps c hcne hd
  have htokne : b64encode (fernet_token_bytes secret ts iv (jsonDumps c)) ≠ [] := by
    apply b64encode_ne_nil
    intro habs
    have : (fernet_token_bytes secret ts iv (jsonDumps c)).length = 0 := by
      rw [habs]; rfl
    rw [show fernet_token_bytes secret ts iv (jsonDumps c) =
      (128 :: (beBytes 8 ts ++ beBytes 16 iv ++ _)) ++ _ from rfl] at this
    simp at this
  refine ⟨by rw [henc, Option.some_bind, hdec], ?_⟩
  rw [set_star_keys, henc, Option.map_some']
  rw [get_star_keys, if_neg htokne, hdec, Option.some_bind, hjson, Option.getD_some]

/-- C7: a stored value that is already Key Codec ciphertext (produced by
`encrypt_data` at any realistic timestamp) starts with the `gAAAA` marker, so
the encrypt-on-save guard of `save` leaves it unchanged: re-saving never
re-encrypts, and the encrypted winning combination is not altered by any
later save of the draw. -/
theorem save_ciphertext_unchanged (secret secret2 : PyStr) (ts iv ts2 iv2 : Nat)
    (data tok : PyStr) (hs : secret ≠ []) (hts : ts < 4398046511104)
    (henc : encrypt_data secret ts iv data = some tok) :
    save_star_keys secret2 ts2 iv2 tok = some tok := by
  rw [encrypt_data, if_neg hs, Option.some.injEq] at henc
  rw [save_star_keys, if_neg]
  intro hcond
  exact hcond.2 (by rw [← henc]; exact token_starts_gAAAA secret ts iv data hts)

set_option maxRecDepth 100000 in
/-- Witness for C7 at a concrete secret, timestamp, IV and plaintext. -/
theorem save_ciphertext_unchanged_witness :
    ([107] ≠ ([] : PyStr)) ∧ (0 : Nat) < 4398046511104 ∧
    save_star_keys [9] 5 5 ((encrypt_data [107] 0 0 (jsonDumps [1, 2, 3, 4, 5, 6])).getD []) =
      some ((encrypt_data [107] 0 0 (jsonDumps [1, 2, 3, 4, 5, 6])).getD []) :=
  ⟨by decide, by decide,
    save_ciphertext_unchanged [107] [9] 0 0 5 5 (jsonDumps [1, 2, 3, 4, 5, 6]) _
      (by decide) (by decide) (by decide)⟩

set_option maxRecDepth 100000 in
/-- Witness for C6 at a concrete secret, timestamp, IV and combination. -/
theorem star_keys_roundtrip_witness :
    ([107] ≠ ([] : PyStr)) ∧ ([1, 2, 3, 4, 5, 6] : List Nat).length = 6 ∧
    ((encrypt_data [107] 0 0 (jsonDumps [1, 2, 3, 4, 5, 6])).bind (decrypt_data [107]) =
        some (jsonDumps [1, 2, 3, 4, 5, 6])
      ∧ (set_star_keys [107] 0 0 [1, 2, 3, 4, 5, 6]).map (get_star_keys [107]) =
        some [1, 2, 3, 4, 5, 6]) :=
  ⟨by decide, by decide,
    star_keys_roundtrip [107] 0 0 [1, 2, 3, 4, 5, 6] (by decide) (by decide) (by decide)⟩

set_option maxRecDepth 1000000 in
/-- C1 is violated by the code: Fernet draws a fresh random IV at each
encrypt call and embeds it in the token, so two invocations on the same
plaintext under the same secret return different ciphertext strings (here at
IVs 0 and 1), even though both decrypt to the same plaintext; consequently
`map_winner`, which filters tickets by equality of stored encrypted values,
does not find a ticket holding the same six symbols that was encrypted under
a different IV. -/
theorem encrypt_data_not_deterministic :
    encrypt_data [107] 0 0 (jsonDumps [1, 2, 3, 4, 5, 6]) ≠
      encrypt_data [107] 0 1 (jsonDumps [1, 2, 3, 4, 5, 6])
    ∧ (encrypt_data [107] 0 0 (jsonDumps [1, 2, 3, 4, 5, 6])).bind (decrypt_data [107]) =
      (encrypt_data [107] 0 1 (jsonDumps [1, 2, 3, 4, 5, 6])).bind (decrypt_data [107])
    ∧ map_winner [107] 2 2
        ⟨[], 100, (encrypt_data [107] 0 0 (jsonDumps [1, 2, 3, 4, 5, 6])).getD [],
          DrawStatus.ACTIVE, 0, 0, 0, none, none⟩
        [⟨(encrypt_data [107] 0 1 (jsonDumps [1, 2, 3, 4, 5, 6])).getD [], 7, 3⟩] =
      some (none,
        ⟨[], 100, (encrypt_data [107] 0 0 (jsonDumps [1, 2, 3, 4, 5, 6])).getD [],
          DrawStatus.ACTIVE, 0, 0, 0, none, none⟩) :=
  ⟨by decide, by decide, by decide⟩

theorem dedup_length_eq_iff (l : List Nat) : l.dedup.length = l.length ↔ l.Nodup := by
  constructor
  · intro h
    have hd := (List.dedup_sublist l).eq_of_length h
    rw [← hd]
    exact l.nodup_dedup
  · intro h
    rw [List.dedup_eq_self.mpr h]

theorem filter_length_eq_iff (p : Nat → Bool) (l : List Nat) :
    (l.filter p).length = l.length ↔ ∀ a ∈ l, p a = true := by
  constructor
  · intro h
    exact List.filter_eq_self.mp ((List.filter_sublist l).eq_of_length h)
  · intro h
    rw [List.filter_eq_self.mpr h]

theorem dedup_single_all_eq (l : List Nat) (a : Nat) (h : l.dedup = [a]) :
    ∀ y ∈ l, y = a := by
  intro y hy
  have : y ∈ l.dedup := List.mem_dedup.mpr hy
  rw [h, List.mem_singleton] at this
  exact this

/-- C8: on six-symbol combinations `calculate_rarity` follows exactly the
priority chain of the specification (distinct, then all even, then all odd,
then all identical, then Common); six identical digits land in the parity
branches and are Epic, and the Legendary branch is unreachable. -/
theorem calculate_rarity_priority (l : List Nat) (x : Nat) (h6 : l.length = 6) :
    calculate_rarity l = rarity_spec_order l
    ∧ calculate_rarity (List.replicate 6 x) = "Epic"
    ∧ calculate_rarity l ≠ "Legendary" := by
  have hne : l ≠ [] := by intro h; rw [h] at h6; simp at h6
  have hdedup6 : (l.dedup.length = 6) ↔ l.Nodup := by rw [← h6]; exact dedup_length_eq_iff l
  have heven : ((l.filter (fun k => k % 2 = 0)).length = 6) ↔
      (l.all (fun k => k % 2 = 0) = true) := by
    rw [← h6, filter_length_eq_iff, List.all_eq_true]
  have hodd : ((l.filter (fun k => k % 2 ≠ 0)).length = 6) ↔
      (l.all (fun k => k % 2 = 1) = true) := by
    rw [← h6, filter_length_eq_iff, List.all_eq_true]
    constructor
    · intro h a ha
      have := h a ha
      simp only [decide_eq_true_eq] at this ⊢
      omega
    · intro h a ha
      have := h a ha
      simp only [decide_eq_true_eq] at this ⊢
      omega
  have hrep : (List.replicate 6 x).dedup = [x] := by
    simp [List.replicate, List.dedup_cons_of_mem, List.mem_cons]
  have hlegendary : ¬ ((l.filter (fun k => k % 2 = 0)).length ≠ 6
      ∧ (l.filter (fun k => k % 2 ≠ 0)).length ≠ 6 ∧ l.dedup.length = 1) := by
    rintro ⟨he, ho, hone⟩
    obtain ⟨a, ha⟩ := List.length_eq_one.mp hone
    have hall := dedup_single_all_eq l a ha
    by_cases hpar : a % 2 = 0
    · apply he
      rw [← h6, filter_length_eq_iff]
      intro y hy
      rw [hall y hy]
      simp [hpar]
    · apply ho
      rw [← h6, filter_length_eq_iff]
      intro y hy
      rw [hall y hy]
      simp [hpar]
  refine ⟨?_, ?_, ?_⟩
  · rw [calculate_rarity, rarity_spec_order, if_neg hne]
    by_cases h1 : l.dedup.length = 6
    · rw [if_pos h1, if_pos (hdedup6.mp h1)]
    · rw [if_neg h1, if_neg (fun hn => h1 (hdedup6.mpr hn))]
      by_cases h2 : (l.filter (fun k => k % 2 = 0)).length = 6
      · rw [if_pos h2, if_pos (heven.mp h2)]
      · rw [if_neg h2, if_neg (fun hall => h2 (heven.mpr hall))]
        by_cases h3 : (l.filter (fun k => k % 2 ≠ 0)).length = 6
        · rw [if_pos h3, if_pos (hodd.mp h3)]
        · rw [if_neg h3, if_neg (fun hall => h3 (hodd.mpr hall))]
          have h4 : l.dedup.length ≠ 1 := fun hone => hlegendary ⟨h2, h3, hone⟩
          rw [if_neg h4]
          have h5 : ¬ (l.all (fun k => l.head? = some k) = true) := by
            intro hall
            apply h4
            rw [List.all_eq_true] at hall
            cases l with
            | nil => exact absurd rfl hne
            | cons z zs =>
              have hz : ∀ y ∈ z :: zs, y = z := by
                intro y hy
                have := hall y hy
                simp only [List.head?_cons, Option.some.injEq, decide_eq_true_eq] at this
                omega
              have : (z :: zs).dedup = [z] := by
                have hsub : (z :: zs).dedup.Sublist (z :: zs) := List.dedup_sublist _
                have hmem : ∀ y ∈ (z :: zs).dedup, y = z := fun y hy =>
                  hz y (List.mem_dedup.mp hy)
                have hzmem : z ∈ (z :: zs).dedup := List.mem_dedup.mpr (by simp)
                have hnd : (z :: zs).dedup.Nodup := List.nodup_dedup _
                cases hd : (z :: zs).dedup with
                | nil => rw [hd] at hzmem; simp at hzmem
                | cons w ws =>
                  rw [hd] at hmem hnd
                  have hw : w = z := hmem w (by simp)
                  cases ws with
                  | nil => rw [hw]
                  | cons v vs =>
                    have hv : v = z := hmem v (by simp)
                    rw [hw, hv] at hnd
                    simp at hnd
              rw [this]
              rfl
          rw [if_neg h5]
  · rw [calculate_rarity]
    rw [if_neg (by simp)]
    rw [hrep]
    rw [if_neg (by simp)]
    by_cases hpar : x % 2 = 0
    · rw [if_pos]
      have hfe : List.filter (fun k => k % 2 = 0) (List.replicate 6 x) =
          List.replicate 6 x :=
        List.filter_eq_self.mpr (fun a ha => by rw [List.eq_of_mem_replicate ha]; simp [hpar])
      rw [hfe, List.length_replicate]
    · have hzero : List.filter (fun k => k % 2 = 0) (List.replicate 6 x) = [] := by
        rw [List.filter_eq_nil_iff]
        intro a ha
        rw [List.eq_of_mem_replicate ha]
        simp [hpar]
      rw [if_neg (by rw [hzero]; simp)]
      rw [if_pos]
      have hfo : List.filter (fun k => k % 2 ≠ 0) (List.replicate 6 x) =
          List.replicate 6 x :=
        List.filter_eq_self.mpr (fun a ha => by rw [List.eq_of_mem_replicate ha]; simp [hpar])
      rw [hfo, List.length_replicate]
  · rw [calculate_rarity, if_neg hne]
    by_cases h1 : l.dedup.length = 6
    · rw [if_pos h1]; simp
    · rw [if_neg h1]
      by_cases h2 : (l.filter (fun k => k % 2 = 0)).length = 6
      · rw [if_pos h2]; simp
      · rw [if_neg h2]
        by_cases h3 : (l.filter (fun k => k % 2 ≠ 0)).length = 6
        · rw [if_pos h3]; simp
        · rw [if_neg h3]
          rw [if_neg (fun hone => hlegendary ⟨h2, h3, hone⟩)]
          simp

/-- Witness for C8 at the concrete combination 1..6 and repeated digit 3. -/
theorem calculate_rarity_priority_witness :
    ([1, 2, 3, 4, 5, 6] : List Nat).length = 6
    ∧ (calculate_rarity [1, 2, 3, 4, 5, 6] = rarity_spec_order [1, 2, 3, 4, 5, 6]
      ∧ calculate_rarity (List.replicate 6 3) = "Epic"
      ∧ calculate_rarity [1, 2, 3, 4, 5, 6] ≠ "Legendary") :=
  ⟨by decide, calculate_rarity_priority [1, 2, 3, 4, 5, 6] 3 (by decide)⟩

/-- C9 is false on the code: the combination `[1, 3, 1, 3, 1, 3]` is all odd,
so the all-odd branch fires and the result is Epic, not Common. -/
theorem rarity_1313_not_common : calculate_rarity [1, 3, 1, 3, 1, 3] ≠ "Common" := by
  decide

/-- C9 amended: `calculate_rarity` classifies `[1, 3, 1, 3, 1, 3]` as Epic. -/
theorem rarity_1313_epic : calculate_rarity [1, 3, 1, 3, 1, 3] = "Epic" := by
  decide

/-- C10: while a draw is not ENDED, the `draw_detail` response carries no
winning-combination data: the `winning_keys` field is absent, and two draws
that differ only in their stored winning combination produce identical
responses. -/
theorem draw_detail_no_leak (secret : PyStr) (now : Nat) (d : DrawM) (s2 : PyStr)
    (h : d.status ≠ DrawStatus.ENDED) :
    (draw_detail secret now d).winning_keys = none
    ∧ draw_detail secret now { d with star_keys := s2 } = draw_detail secret now d := by
  constructor
  · rw [draw_detail]
    simp [h]
  · rw [draw_detail, draw_detail]
    simp [can_participate, h]

/-- Witness for C10 on a concrete ACTIVE draw and a different stored
combination. -/
theorem draw_detail_no_leak_witness :
    (draw_detail [107] 5 ⟨[], 100, [9], DrawStatus.ACTIVE, 9, 0, 0, none, none⟩).winning_keys
      = none
    ∧ draw_detail [107] 5 ⟨[], 100, [1], DrawStatus.ACTIVE, 9, 0, 0, none, none⟩ =
      draw_detail [107] 5 ⟨[], 100, [9], DrawStatus.ACTIVE, 9, 0, 0, none, none⟩ :=
  draw_detail_no_leak [107] 5 ⟨[], 100, [9], DrawStatus.ACTIVE, 9, 0, 0, none, none⟩ [1]
    (by decide)

/-- C5: `process_draw` rejects every draw whose status is not ACTIVE or whose
scheduled datetime is still in the future (in particular a second invocation
on an already ENDED draw), returning the structured failure response and
leaving the draw row unchanged, whatever the ticket set and whatever later
failure would have been injected. -/
theorem process_draw_guard (secret : PyStr) (ts iv now : Nat) (d : DrawM)
    (tickets : List FK) (fail : Option FailPoint)
    (h : d.status ≠ DrawStatus.ACTIVE ∨ now < d.draw_datetime) :
    process_draw secret ts iv now d tickets fail =
      ({ success := false, error := some ProcErr.state_rejected }, d) := by
  rw [process_draw, if_pos h]

/-- Witness for C5: a second invocation on an already ENDED draw. -/
theorem process_draw_guard_witness :
    ((⟨[], 100, [], DrawStatus.ENDED, 0, 0, 0, none, none⟩ : DrawM).status ≠
      DrawStatus.ACTIVE ∨ (5 : Nat) < 0)
    ∧ process_draw [107] 0 0 5 ⟨[], 100, [], DrawStatus.ENDED, 0, 0, 0, none, none⟩ [] none =
      ({ success := false, error := some ProcErr.state_rejected },
        ⟨[], 100, [], DrawStatus.ENDED, 0, 0, 0, none, none⟩) :=
  ⟨by decide,
    process_draw_guard [107] 0 0 5 ⟨[], 100, [], DrawStatus.ENDED, 0, 0, 0, none, none⟩ []
      none (by decide)⟩

set_option maxRecDepth 1000000 in
/-- C3 is violated by the code: on a due ACTIVE draw holding a ticket whose
stored ciphertext equals the stored winning ciphertext, `map_winner` persists
`winning_ticket_serial` and `winner_wallet` via its own `self.save()` before
the `transaction.atomic()` block, and the winner branch then raises
(`draw.prize_pool * 0.7` multiplies a Decimal by a float) before any status
update, so the request fails with the winner fields persisted, the status
still ACTIVE and no prize recorded: processing is not all-or-nothing. -/
theorem process_draw_partial_update :
    (process_draw [107] 0 0 1
        ⟨[], 100, (encrypt_data [107] 0 0 (jsonDumps [1, 2, 3, 4, 5, 6])).getD [],
          DrawStatus.ACTIVE, 0, 0, 0, none, none⟩
        [⟨(encrypt_data [107] 0 0 (jsonDumps [1, 2, 3, 4, 5, 6])).getD [], 7, 3⟩]
        none).1.success = false
    ∧ (process_draw [107] 0 0 1
        ⟨[], 100, (encrypt_data [107] 0 0 (jsonDumps [1, 2, 3, 4, 5, 6])).getD [],
          DrawStatus.ACTIVE, 0, 0, 0, none, none⟩
        [⟨(encrypt_data [107] 0 0 (jsonDumps [1, 2, 3, 4, 5, 6])).getD [], 7, 3⟩]
        none).2.winner_wallet = some 3
    ∧ (process_draw [107] 0 0 1
        ⟨[], 100, (encrypt_data [107] 0 0 (jsonDumps [1, 2, 3, 4, 5, 6])).getD [],
          DrawStatus.ACTIVE, 0, 0, 0, none, none⟩
        [⟨(encrypt_data [107] 0 0 (jsonDumps [1, 2, 3, 4, 5, 6])).getD [], 7, 3⟩]
        none).2.winning_ticket_serial = some 7
    ∧ (process_draw [107] 0 0 1
        ⟨[], 100, (encrypt_data [107] 0 0 (jsonDumps [1, 2, 3, 4, 5, 6])).getD [],
          DrawStatus.ACTIVE, 0, 0, 0, none, none⟩
        [⟨(encrypt_data [107] 0 0 (jsonDumps [1, 2, 3, 4, 5, 6])).getD [], 7, 3⟩]
        none).2.status = DrawStatus.ACTIVE
    ∧ (process_draw [107] 0 0 1
        ⟨[], 100, (encrypt_data [107] 0 0 (jsonDumps [1, 2, 3, 4, 5, 6])).getD [],
          DrawStatus.ACTIVE, 0, 0, 0, none, none⟩
        [⟨(encrypt_data [107] 0 0 (jsonDumps [1, 2, 3, 4, 5, 6])).getD [], 7, 3⟩]
        none).2.total_prize_distributed = 0 := by
  refine ⟨by decide, by decide, by decide, by decide, by decide⟩

/-- C4: once a draw has ENDED with a recorded winner, the prize breakdown of
`get_draw_statistics` gives the jackpot winner exactly 70 percent of the
pool; the secondary list has `min 5 n` entries, where `n` is the number of
tickets qualifying at threshold 4, each holding the 20 percent secondary pool
divided by `min 5 n` (so by `n` itself when fewer than 5 qualify); and the
jackpot plus all secondary amounts never exceed 90 percent of the pool. -/
theorem prize_distribution_spec (secret : PyStr) (d : DrawM) (tickets : List FK)
    (hstat : d.status = DrawStatus.ENDED) (hw : d.winner_wallet ≠ none)
    (hp : 0 ≤ d.prize_pool) :
    (draw_prize_distribution secret d tickets).jackpot_amount =
      some (d.prize_pool * (7 / 10 : ℚ))
    ∧ (draw_prize_distribution secret d tickets).secondary.length =
        min 5 (map_nearest_winner secret d tickets 4).length
    ∧ (draw_prize_distribution secret d tickets).secondary.map SecondaryWinner.amount =
        List.replicate (min 5 (map_nearest_winner secret d tickets 4).length)
          (d.prize_pool * (2 / 10 : ℚ) /
            ((min 5 (map_nearest_winner secret d tickets 4).length : Nat) : ℚ))
    ∧ d.prize_pool * (7 / 10 : ℚ) +
        ((draw_prize_distribution secret d tickets).secondary.map
          SecondaryWinner.amount).sum
        ≤ d.prize_pool * (9 / 10 : ℚ) := by
  rw [draw_prize_distribution, if_pos ⟨hstat, hw⟩]
  by_cases hn : map_nearest_winner secret d tickets 4 = []
  · rw [if_neg (fun hc => hc hn)]
    dsimp only
    rw [hn]
    refine ⟨rfl, by simp, by simp, ?_⟩
    simp only [List.map_nil, List.sum_nil, add_zero]
    have := mul_le_mul_of_nonneg_left (by norm_num : (7 / 10 : ℚ) ≤ 9 / 10) hp
    linarith
  · rw [if_pos hn]
    dsimp only
    have hlen1 : 1 ≤ (map_nearest_winner secret d tickets 4).length :=
      List.length_pos.mpr hn
    have hmin1 : 1 ≤ min 5 (map_nearest_winner secret d tickets 4).length := by omega
    have hmap : (((map_nearest_winner secret d tickets 4).take 5).map (fun w =>
        ({ wallet := w.forged_key.wallet,
           amount := d.prize_pool * (2 / 10 : ℚ) /
             ((min 5 (map_nearest_winner secret d tickets 4).length : Nat) : ℚ),
           match_count := w.match_count,
           serial := w.forged_key.serial } : SecondaryWinner))).map SecondaryWinner.amount =
        List.replicate (min 5 (map_nearest_winner secret d tickets 4).length)
          (d.prize_pool * (2 / 10 : ℚ) /
            ((min 5 (map_nearest_winner secret d tickets 4).length : Nat) : ℚ)) := by
      rw [List.map_map]
      dsimp only [Function.comp_def]
      rw [List.map_const', List.length_take]
    refine ⟨rfl, by simp [List.length_take], hmap, ?_⟩
    rw [hmap, List.sum_replicate, nsmul_eq_mul]
    have hcast : (1 : ℚ) ≤
        ((min 5 (map_nearest_winner secret d tickets 4).length : Nat) : ℚ) := by
      exact_mod_cast hmin1
    have hne0 : ((min 5 (map_nearest_winner secret d tickets 4).length : Nat) : ℚ) ≠ 0 := by
      intro h0
      rw [h0] at hcast
      norm_num at hcast
    have hsum : ((min 5 (map_nearest_winner secret d tickets 4).length : Nat) : ℚ) *
        (d.prize_pool * (2 / 10 : ℚ) /
          ((min 5 (map_nearest_winner secret d tickets 4).length : Nat) : ℚ)) =
        d.prize_pool * (2 / 10 : ℚ) := by
      rw [mul_comm, div_mul_cancel₀ _ hne0]
    rw [hsum]
    have hring : d.prize_pool * (7 / 10 : ℚ) + d.prize_pool * (2 / 10 : ℚ) =
        d.prize_pool * (9 / 10 : ℚ) := by ring
    rw [hring]

/-- The decrypt-and-parse result of a stored ticket combination: `none` when
the field is empty, fails to decrypt, or fails to parse. -/
def ticket_keys? (secret : PyStr) (fk : FK) : Option (List Nat) :=
  if fk.star_keys = [] then none
  else (decrypt_data secret fk.star_keys).bind jsonLoads

/-- A ticket qualifies at threshold `m` when its stored combination decrypts
and parses and its symbol set shares at least `m` symbols with the winning
symbol set; a ticket that fails to decrypt or parse never qualifies. -/
def ticket_qualifies (secret : PyStr) (d : DrawM) (m : Nat) (fk : FK) : Bool :=
  match ticket_keys? secret fk with
  | some L => m ≤ ((get_star_keys secret d.star_keys).dedup.filter
      (fun k => k ∈ L.dedup)).length
  | none => false

theorem get_star_keys_ticket (secret : PyStr) (fk : FK) :
    get_star_keys secret fk.star_keys = (ticket_keys? secret fk).getD [] := by
  rw [get_star_keys, ticket_keys?]
  by_cases h : fk.star_keys = []
  · rw [if_pos h, if_pos h]
    rfl
  · rw [if_neg h, if_neg h]

theorem ticket_qualifies_count (secret : PyStr) (d : DrawM) (m : Nat) (hm : 1 ≤ m)
    (fk : FK) :
    ticket_qualifies secret d m fk = decide (m ≤ ticket_match_count secret d fk) := by
  rw [ticket_qualifies]
  cases hk : ticket_keys? secret fk with
  | none =>
    have hg : get_star_keys secret fk.star_keys = [] := by
      rw [get_star_keys_ticket, hk]
      rfl
    have hz : ticket_match_count secret d fk = 0 := by
      rw [ticket_match_count, ticket_matched_keys, hg]
      simp
    rw [hz]
    symm
    rw [decide_eq_false_iff_not]
    omega
  | some L =>
    have hg : get_star_keys secret fk.star_keys = L := by
      rw [get_star_keys_ticket, hk]
      rfl
    rw [ticket_match_count, ticket_matched_keys, hg]

theorem filterMap_entries_filter (secret : PyStr) (d : DrawM) (m : Nat) (hm : 1 ≤ m)
    (ts : List FK) :
    (ts.filterMap (nearest_entry secret d m)).map MatchEntry.forged_key =
      ts.filter (ticket_qualifies secret d m) := by
  induction ts with
  | nil => rfl
  | cons t ts ih =>
    rw [List.filterMap_cons, List.filter_cons, ticket_qualifies_count secret d m hm t]
    by_cases hc : m ≤ ticket_match_count secret d t
    · rw [nearest_entry, if_pos hc, decide_eq_true hc, if_pos rfl]
      rw [List.map_cons, ih]
    · rw [nearest_entry, if_neg hc, ih]
      rw [if_neg (by simp [hc])]

/-- C2 amended: for a draw whose winning combination decrypts to a symbol set
of exactly six distinct symbols and a positive threshold `m`,
`map_nearest_winner` returns exactly the tickets whose decrypted symbol set
shares at least `m` symbols with the winning set (a ticket that fails to
decrypt or parse has an empty set and is excluded), sorted by descending
match count, each entry carrying its true match count of at least `m`. -/
theorem map_nearest_winner_spec (secret : PyStr) (d : DrawM) (tickets : List FK)
    (m : Nat) (h6 : (get_star_keys secret d.star_keys).dedup.length = 6) (hm : 1 ≤ m) :
    ((map_nearest_winner secret d tickets m).map MatchEntry.forged_key).Perm
      (tickets.filter (ticket_qualifies secret d m))
    ∧ (map_nearest_winner secret d tickets m).Pairwise
        (fun a b => b.match_count ≤ a.match_count)
    ∧ (map_nearest_winner secret d tickets m).Forall
        (fun e => e.match_count = ticket_match_count secret d e.forged_key
          ∧ m ≤ e.match_count) := by
  have hne : ¬((get_star_keys secret d.star_keys).dedup = []
      ∨ (get_star_keys secret d.star_keys).dedup.length ≠ 6) := by
    rintro (h | h)
    · rw [h] at h6
      simp at h6
    · exact h h6
  rw [map_nearest_winner, if_neg hne]
  refine ⟨?_, ?_, ?_⟩
  · have hperm := (List.mergeSort_perm (tickets.filterMap (nearest_entry secret d m))
      (fun a b => b.match_count ≤ a.match_count)).map MatchEntry.forged_key
    rw [filterMap_entries_filter secret d m hm tickets] at hperm
    exact hperm
  · have hsorted := @List.sorted_mergeSort MatchEntry
      (fun a b : MatchEntry => decide (b.match_count ≤ a.match_count))
      (fun a b c hab hbc => by
        simp only [decide_eq_true_eq] at hab hbc ⊢
        omega)
      (fun a b => by
        simp only [Bool.or_eq_true, decide_eq_true_eq]
        omega)
      (tickets.filterMap (nearest_entry secret d m))
    exact hsorted.imp (fun h => of_decide_eq_true h)
  · rw [List.forall_iff_forall_mem]
    intro e he
    have hmem : e ∈ tickets.filterMap (nearest_entry secret d m) :=
      (List.mergeSort_perm _ _).mem_iff.mp he
    obtain ⟨t, _, hft⟩ := List.mem_filterMap.mp hmem
    by_cases hc : m ≤ ticket_match_count secret d t
    · rw [nearest_entry, if_pos hc, Option.some.injEq] at hft
      rw [← hft]
      exact ⟨rfl, hc⟩
    · rw [nearest_entry, if_neg hc] at hft
      exact absurd hft (by simp)

set_option maxRecDepth 1000000 in
/-- Witness for C2 amended on a concrete draw, one qualifying ticket and
threshold 5. -/
theorem map_nearest_winner_spec_witness :
    (get_star_keys [107]
        ((encrypt_data [107] 0 0 (jsonDumps [1, 2, 3, 4, 5, 6])).getD [])).dedup.length = 6
    ∧ (1 : Nat) ≤ 5
    ∧ (((map_nearest_winner [107]
          ⟨[], 100, (encrypt_data [107] 0 0 (jsonDumps [1, 2, 3, 4, 5, 6])).getD [],
            DrawStatus.ACTIVE, 0, 0, 0, none, none⟩
          [⟨(encrypt_data [107] 1 1 (jsonDumps [1, 2, 3, 4, 5, 9])).getD [], 1, 1⟩]
          5).map MatchEntry.forged_key).Perm
        ([⟨(encrypt_data [107] 1 1 (jsonDumps [1, 2, 3, 4, 5, 9])).getD [], 1, 1⟩].filter
          (ticket_qualifies [107]
            ⟨[], 100, (encrypt_data [107] 0 0 (jsonDumps [1, 2, 3, 4, 5, 6])).getD [],
              DrawStatus.ACTIVE, 0, 0, 0, none, none⟩ 5))
      ∧ (map_nearest_winner [107]
          ⟨[], 100, (encrypt_data [107] 0 0 (jsonDumps [1, 2, 3, 4, 5, 6])).getD [],
            DrawStatus.ACTIVE, 0, 0, 0, none, none⟩
          [⟨(encrypt_data [107] 1 1 (jsonDumps [1, 2, 3, 4, 5, 9])).getD [], 1, 1⟩]
          5).Pairwise (fun a b => b.match_count ≤ a.match_count)
      ∧ (map_nearest_winner [107]
          ⟨[], 100, (encrypt_data [107] 0 0 (jsonDumps [1, 2, 3, 4, 5, 6])).getD [],
            DrawStatus.ACTIVE, 0, 0, 0, none, none⟩
          [⟨(encrypt_data [107] 1 1 (jsonDumps [1, 2, 3, 4, 5, 9])).getD [], 1, 1⟩]
          5).Forall (fun e => e.match_count = ticket_match_count [107]
            ⟨[], 100, (encrypt_data [107] 0 0 (jsonDumps [1, 2, 3, 4, 5, 6])).getD [],
              DrawStatus.ACTIVE, 0, 0, 0, none, none⟩ e.forged_key
          ∧ 5 ≤ e.match_count)) :=
  ⟨by decide, by decide,
    map_nearest_winner_spec [107]
      ⟨[], 100, (encrypt_data [107] 0 0 (jsonDumps [1, 2, 3, 4, 5, 6])).getD [],
        DrawStatus.ACTIVE, 0, 0, 0, none, none⟩
      [⟨(encrypt_data [107] 1 1 (jsonDumps [1, 2, 3, 4, 5, 9])).getD [], 1, 1⟩]
      5 (by decide) (by decide)⟩

set_option maxRecDepth 1000000 in
/-- C2 as frozen is false on the code: a draw whose stored winning
combination decrypts and parses to exactly six symbols with a repeated
symbol (`[1, 1, 2, 3, 4, 5]`) makes the set-size guard fail
(`len(set(...)) = 5 != 6`), so `map_nearest_winner` returns the empty list
even though a ticket sharing 5 symbols with the winning combination exists
and the claim requires it to be returned. -/
theorem map_nearest_winner_counterexample :
    (get_star_keys [107]
        ((encrypt_data [107] 0 0 (jsonDumps [1, 1, 2, 3, 4, 5])).getD [])).length = 6
    ∧ 5 ≤ ticket_match_count [107]
        ⟨[], 100, (encrypt_data [107] 0 0 (jsonDumps [1, 1, 2, 3, 4, 5])).getD [],
          DrawStatus.ACTIVE, 0, 0, 0, none, none⟩
        ⟨(encrypt_data [107] 1 1 (jsonDumps [1, 1, 2, 3, 4, 5])).getD [], 1, 1⟩
    ∧ map_nearest_winner [107]
        ⟨[], 100, (encrypt_data [107] 0 0 (jsonDumps [1, 1, 2, 3, 4, 5])).getD [],
          DrawStatus.ACTIVE, 0, 0, 0, none, none⟩
        [⟨(encrypt_data [107] 1 1 (jsonDumps [1, 1, 2, 3, 4, 5])).getD [], 1, 1⟩] 5 = [] :=
  ⟨by decide, by decide, by decide⟩

/-- Concrete ENDED draw with a recorded winner used by the C4 witness. -/
def c4_draw : DrawM := ⟨[], 100, [], DrawStatus.ENDED, 0, 0, 0, some 4, some 1⟩

/-- Witness for C4 on a concrete ended draw with a winner and no tickets. -/
theorem prize_distribution_spec_witness :
    c4_draw.status = DrawStatus.ENDED
    ∧ c4_draw.winner_wallet ≠ none
    ∧ (0 : ℚ) ≤ c4_draw.prize_pool
    ∧ ((draw_prize_distribution [107] c4_draw []).jackpot_amount =
        some (c4_draw.prize_pool * (7 / 10 : ℚ))
      ∧ (draw_prize_distribution [107] c4_draw []).secondary.length =
          min 5 (map_nearest_winner [107] c4_draw [] 4).length
      ∧ (draw_prize_distribution [107] c4_draw []).secondary.map SecondaryWinner.amount =
          List.replicate (min 5 (map_nearest_winner [107] c4_draw [] 4).length)
            (c4_draw.prize_pool * (2 / 10 : ℚ) /
              ((min 5 (map_nearest_winner [107] c4_draw [] 4).length : Nat) : ℚ))
      ∧ c4_draw.prize_pool * (7 / 10 : ℚ) +
          ((draw_prize_distribution [107] c4_draw []).secondary.map
            SecondaryWinner.amount).sum
          ≤ c4_draw.prize_pool * (9 / 10 : ℚ)) :=
  ⟨by decide, by decide, by decide,
    prize_distribution_spec [107] c4_draw [] (by decide) (by decide) (by decide)⟩
